import Mathlib

/-!
Verification development for the `mcp-git-ingest` repository
(`src/mcp_git_ingest/main.py` and `src/mcp_git_ingest/consts.py`).

The Python source is shallowly embedded: pure computations (cache-key
derivation, path joining, tree rendering, dictionary updates) become
executable Lean functions; the effectful collaborators (the git client,
the filesystem, the environment, the summarization API) become explicit
parameters describing the outcome of each external call, and the
functions additionally record a trace of the filesystem actions they
perform, mirroring the order of the statements in the source.
-/

set_option maxRecDepth 10000

namespace McpGitIngest

/-! ### UTF-8 encoding of strings, as `str.encode('utf-8')` / `.encode()` -/

/-- UTF-8 encoding of a single Unicode code point, as a list of byte
values (each `< 256`). -/
def encodeCharUtf8 (c : Char) : List Nat :=
  let n := c.toNat
  if n < 0x80 then [n]
  else if n < 0x800 then
    [0xC0 ||| (n >>> 6), 0x80 ||| (n &&& 63)]
  else if n < 0x10000 then
    [0xE0 ||| (n >>> 12), 0x80 ||| ((n >>> 6) &&& 63), 0x80 ||| (n &&& 63)]
  else
    [0xF0 ||| (n >>> 18), 0x80 ||| ((n >>> 12) &&& 63),
     0x80 ||| ((n >>> 6) &&& 63), 0x80 ||| (n &&& 63)]

/-- UTF-8 byte sequence of a string, as Python's `s.encode('utf-8')`. -/
def utf8Bytes (s : String) : List Nat :=
  s.data.flatMap encodeCharUtf8

/-! ### SHA-256 (`hashlib.sha256`), on byte lists, words as `Nat % 2^32` -/

/-- Truncation to a 32-bit word. -/
def w32 (n : Nat) : Nat := n % 4294967296

/-- 32-bit right rotation. -/
def rotr (k x : Nat) : Nat := w32 ((x >>> k) ||| (x <<< (32 - k)))

/-- SHA-256 `Ch(x,y,z) = (x ∧ y) ⊕ (¬x ∧ z)`; `¬x` as xor with the 32-bit
all-ones mask since `Nat` has no complement. -/
def ch (x y z : Nat) : Nat := (x &&& y) ^^^ ((x ^^^ 4294967295) &&& z)

/-- SHA-256 `Maj(x,y,z)`. -/
def maj (x y z : Nat) : Nat := (x &&& y) ^^^ (x &&& z) ^^^ (y &&& z)

/-- SHA-256 big sigma 0. -/
def bsig0 (x : Nat) : Nat := rotr 2 x ^^^ rotr 13 x ^^^ rotr 22 x

/-- SHA-256 big sigma 1. -/
def bsig1 (x : Nat) : Nat := rotr 6 x ^^^ rotr 11 x ^^^ rotr 25 x

/-- SHA-256 small sigma 0. -/
def ssig0 (x : Nat) : Nat := rotr 7 x ^^^ rotr 18 x ^^^ (x >>> 3)

/-- SHA-256 small sigma 1. -/
def ssig1 (x : Nat) : Nat := rotr 17 x ^^^ rotr 19 x ^^^ (x >>> 10)

/-- The 64 SHA-256 round constants. -/
def K256 : List Nat :=
  [1116352408, 1899447441, 3049323471, 3921009573,
   961987163, 1508970993, 2453635748, 2870763221,
   3624381080, 310598401, 607225278, 1426881987,
   1925078388, 2162078206, 2614888103, 3248222580,
   3835390401, 4022224774, 264347078, 604807628,
   770255983, 1249150122, 1555081692, 1996064986,
   2554220882, 2821834349, 2952996808, 3210313671,
   3336571891, 3584528711, 113926993, 338241895,
   666307205, 773529912, 1294757372, 1396182291,
   1695183700, 1986661051, 2177026350, 2456956037,
   2730485921, 2820302411, 3259730800, 3345764771,
   3516065817, 3600352804, 4094571909, 275423344,
   430227734, 506948616, 659060556, 883997877,
   958139571, 1322822218, 1537002063, 1747873779,
   1955562222, 2024104815, 2227730452, 2361852424,
   2428436474, 2756734187, 3204031479, 3329325298]

/-- The SHA-256 initial hash state. -/
def H256 : List Nat :=
  [1779033703, 3144134277, 1013904242, 2773480762,
   1359893119, 2600822924, 528734635, 1541459225]

/-- Big-endian 8-byte encoding of a (64-bit) length. -/
def be64 (n : Nat) : List Nat :=
  [(n >>> 56) % 256, (n >>> 48) % 256, (n >>> 40) % 256, (n >>> 32) % 256,
   (n >>> 24) % 256, (n >>> 16) % 256, (n >>> 8) % 256, n % 256]

/-- SHA-256 padding: append `0x80`, zero bytes up to 56 mod 64, then the
bit length big-endian. -/
def padMsg (msg : List Nat) : List Nat :=
  let L := msg.length
  let z := (119 - L % 64) % 64
  msg ++ [0x80] ++ List.replicate z 0 ++ be64 (8 * L)

/-- Split a byte list into successive 64-byte chunks (fuel-driven; the
fuel `n` bounds the number of chunks). -/
def toChunksGo : Nat → List Nat → List (List Nat)
  | 0, _ => []
  | _ + 1, [] => []
  | n + 1, l => l.take 64 :: toChunksGo n (l.drop 64)

/-- Split a byte list into successive 64-byte chunks. -/
def toChunks (l : List Nat) : List (List Nat) :=
  toChunksGo l.length l

/-- Combine bytes into big-endian 32-bit words. -/
def toWords : List Nat → List Nat
  | b0 :: b1 :: b2 :: b3 :: rest =>
      ((b0 <<< 24) + (b1 <<< 16) + (b2 <<< 8) + b3) :: toWords rest
  | _ => []

/-- Message-schedule extension of the 16 chunk words to 64 words. -/
def extendW (w : List Nat) : List Nat :=
  (List.range 48).foldl
    (fun w i =>
      w ++ [w32 (ssig1 (w.getD (i + 14) 0) + w.getD (i + 9) 0 +
                 ssig0 (w.getD (i + 1) 0) + w.getD i 0)])
    w

/-- One SHA-256 compression round; `kw` is the sum of the round constant
and the schedule word. -/
def round256 (st : List Nat) (kw : Nat) : List Nat :=
  match st with
  | [a, b, c, d, e, f, g, h] =>
      let t1 := w32 (h + bsig1 e + ch e f g + kw)
      let t2 := w32 (bsig0 a + maj a b c)
      [w32 (t1 + t2), a, b, c, w32 (d + t1), e, f, g]
  | _ => st

/-- SHA-256 compression of one 64-byte chunk into the running state. -/
def compress256 (h : List Nat) (chunk : List Nat) : List Nat :=
  let w := extendW (toWords chunk)
  let st := (List.range 64).foldl
    (fun st i => round256 st (w32 (K256.getD i 0 + w.getD i 0))) h
  (h.zip st).map (fun p => w32 (p.1 + p.2))

/-- A hexadecimal digit character (lowercase). -/
def hexChar (n : Nat) : Char :=
  if n < 10 then Char.ofNat (48 + n) else Char.ofNat (87 + n)

/-- Lowercase 8-hex-digit rendering of a 32-bit word. -/
def toHex8 (n : Nat) : String :=
  String.mk ((List.range 8).map (fun i => hexChar ((n >>> (28 - 4 * i)) % 16)))

/-- SHA-256 hex digest of a byte list, as `hashlib.sha256(b).hexdigest()`. -/
def sha256hex (msg : List Nat) : String :=
  String.join ((((padMsg msg) |> toChunks).foldl compress256 H256).map toHex8)

/-! ### POSIX path semantics (`os.path.join`, path resolution) -/

/-- Python's `str.startswith`: character-list prefix test. -/
def pyStartsWith (s p : String) : Bool := p.data.isPrefixOf s.data

/-- Character-list suffix test (`str.endswith`). -/
def pyEndsWith (s p : String) : Bool := p.data.isSuffixOf s.data

/-- Split a character list on a separator character; empty pieces are
kept, as in Python's `str.split(sep)`. -/
def splitOnCharAux (c : Char) : List Char → List Char → List String
  | [], acc => [String.mk acc.reverse]
  | x :: xs, acc =>
    if x = c then String.mk acc.reverse :: splitOnCharAux c xs []
    else splitOnCharAux c xs (x :: acc)

/-- Split a string on a separator character. -/
def splitOnChar (c : Char) (s : String) : List String := splitOnCharAux c s.data []

/-- POSIX `os.path.join(a, b)`: a component that is an absolute path
discards everything before it. -/
def posixJoin (a b : String) : String :=
  if pyStartsWith b "/" then b
  else if a = "" then b
  else if pyEndsWith a "/" then a ++ b
  else a ++ "/" ++ b

/-- Canonical path components of a path string as the operating system
resolves it: split on `/`, drop empty and `.` components, and let `..`
remove the preceding component (at the root, `..` stays at the root). -/
def resolvePath (p : String) : List String :=
  (splitOnChar '/' p).foldl
    (fun acc c =>
      if c = "" ∨ c = "." then acc
      else if c = ".." then acc.dropLast
      else acc ++ [c])
    []

/-! ### `clone_repo` (main.py lines 25–48)

The git client and the filesystem are external collaborators; a
`CloneWorld` records the outcome of each external call the function can
make, and the embedding additionally returns the ordered trace of
filesystem actions performed, mirroring the statement order of the
source. -/

/-- Filesystem/git actions performed by `clone_repo`, in source order. -/
inductive FsAction where
  | openRepoAttempt
  | checkoutCached
  | rmtree
  | makedirs
  | cloneAttempt
  | checkoutCloned
deriving DecidableEq, Repr

/-- What `git.Repo(temp_dir)` yields when it does not raise: the `bare`
flag and the outcome of `repo.remote().url` (which may itself raise,
e.g. when no remote is configured). -/
structure CachedRepo where
  bare : Bool
  remoteUrl : Except String String
deriving Repr

/-- Outcomes of the external calls `clone_repo` can make.  `dirExists`
is `os.path.exists(temp_dir)`; `openRepo` is `git.Repo(temp_dir)`;
`checkoutCached` / `checkoutCloned` are the two `repo.git.checkout`
sites; `cloneFrom` is `git.Repo.clone_from` (the error carries
`str(e)`). -/
structure CloneWorld where
  tmpRoot : String
  dirExists : Bool
  openRepo : Except String CachedRepo
  checkoutCached : Except String Unit
  cloneFrom : Except String Unit
  checkoutCloned : Except String Unit

/-- Python truthiness of an optional string (`None` and `""` are falsy),
as used by `commit_hash or ""` and `if commit_hash:`. -/
def pyTruthy (s : Option String) : Bool := s.getD "" != ""

/-- Cache-key derivation (main.py line 27):
`hashlib.sha256((repo_url + (commit_hash or "")).encode()).hexdigest()[:12]`. -/
def repoHash (repo_url : String) (commit_hash : Option String) : String :=
  (sha256hex (utf8Bytes (repo_url ++ commit_hash.getD ""))).take 12

/-- The cache directory (main.py line 28):
`os.path.join(tempfile.gettempdir(), f"github_tools_{repo_hash}")`. -/
def tempDirFor (tmpRoot repo_url : String) (commit_hash : Option String) : String :=
  posixJoin tmpRoot ("github_tools_" ++ repoHash repo_url commit_hash)

/-- The fall-through tail of `clone_repo` (main.py lines 40–48):
`os.makedirs`, `clone_from`, optional checkout; on any exception,
best-effort `rmtree` and raise `Failed to clone repository: ...`. -/
def cloneFresh (w : CloneWorld) (commit_hash : Option String) (dir : String)
    (tr : List FsAction) : Except String String × List FsAction :=
  let tr := tr ++ [.makedirs, .cloneAttempt]
  match w.cloneFrom with
  | .error e => (.error ("Failed to clone repository: " ++ e), tr ++ [.rmtree])
  | .ok _ =>
    if pyTruthy commit_hash then
      match w.checkoutCloned with
      | .ok _ => (.ok dir, tr ++ [.checkoutCloned])
      | .error e =>
          (.error ("Failed to clone repository: " ++ e), tr ++ [.checkoutCloned, .rmtree])
    else (.ok dir, tr)

/-- `clone_repo` (main.py lines 25–48).  In the cached branch the guard
`not repo.bare and repo.remote().url == repo_url` raises no exception
when it is merely false (bare repository or URL mismatch), so the
`except` handler — and its `shutil.rmtree` — does not run on that path
and control falls through to `os.makedirs` / `clone_from` directly. -/
def clone_repo (w : CloneWorld) (repo_url : String) (commit_hash : Option String) :
    Except String String × List FsAction :=
  let temp_dir := tempDirFor w.tmpRoot repo_url commit_hash
  if w.dirExists then
    match w.openRepo with
    | .error _ => cloneFresh w commit_hash temp_dir [.openRepoAttempt, .rmtree]
    | .ok repo =>
      if !repo.bare then
        match repo.remoteUrl with
        | .error _ => cloneFresh w commit_hash temp_dir [.openRepoAttempt, .rmtree]
        | .ok url =>
          if url = repo_url then
            if pyTruthy commit_hash then
              match w.checkoutCached with
              | .ok _ => (.ok temp_dir, [.openRepoAttempt, .checkoutCached])
              | .error _ =>
                  cloneFresh w commit_hash temp_dir
                    [.openRepoAttempt, .checkoutCached, .rmtree]
            else (.ok temp_dir, [.openRepoAttempt])
          else cloneFresh w commit_hash temp_dir [.openRepoAttempt]
      else cloneFresh w commit_hash temp_dir [.openRepoAttempt]
  else cloneFresh w commit_hash temp_dir []

/-- Whether a trace performs a directory deletion at some point strictly
before a clone attempt. -/
def rmtreeBeforeCloneAttempt : List FsAction → Bool
  | [] => false
  | .rmtree :: rest => rest.contains .cloneAttempt
  | _ :: rest => rmtreeBeforeCloneAttempt rest

/-! ### `get_directory_tree` (main.py lines 50–72)

The filesystem subtree under the rendered root is modelled as a finite
tree; `os.listdir` yields the entry names, `entries.sort()` is Python's
code-point-lexicographic sort (which agrees with byte-wise UTF-8
order).  The renderer is embedded as a function producing the list of
rendered lines (prefix, connector, name, size annotation), together
with the path of the entry relative to the root (the source's
`entry_path`); the output string is the concatenation of the rendered
lines.  Recursion is fuel-driven; the entry point supplies sufficient
fuel. -/

/-- A filesystem subtree: a file with a byte size, or a directory with
named entries. -/
inductive FSTree where
  | file (size : Nat)
  | dir (entries : List (String × FSTree))
deriving Repr

/-- Digit-grouping helper: given the reversed digit list, insert `,`
every three digits (Python's `f"{size:,}"`). -/
def commaRev : Nat → List Char → List Char
  | _, [] => []
  | k, c :: rest =>
    if k = 3 then ',' :: c :: commaRev 1 rest else c :: commaRev (k + 1) rest

/-- Python's `f"{n:,}"`: decimal rendering with thousands separators. -/
def commaGroup (n : Nat) : String :=
  String.mk (commaRev 0 (toString n).data.reverse).reverse

/-- `os.path.getsize(entry_path) if os.path.isfile(entry_path) else 0`. -/
def entrySize : FSTree → Nat
  | .file n => n
  | .dir _ => 0

/-- `f" ({size:,} bytes)" if size > 0 else ""`. -/
def sizeAnnOf (t : FSTree) : String :=
  if entrySize t > 0 then " (" ++ commaGroup (entrySize t) ++ " bytes)" else ""

/-- `os.path.isdir(entry_path)`. -/
def isDirEntry : FSTree → Bool
  | .dir _ => true
  | .file _ => false

/-- Lexicographic (code-point, hence byte-wise UTF-8) comparison of
character lists, Python's string `<=`. -/
def charsLe : List Char → List Char → Bool
  | [], _ => true
  | _ :: _, [] => false
  | a :: as, b :: bs =>
    if a.toNat < b.toNat then true
    else if b.toNat < a.toNat then false
    else charsLe as bs

/-- Python's string `<=` on strings. -/
def strLe (a b : String) : Bool := charsLe a.data b.data

/-- `entries.sort()`: stable sort, lexicographic ascending by name
(insertion sort — Python's sort is stable, so any stable sort by the
same order is extensionally identical). -/
def sortEntries (entries : List (String × FSTree)) : List (String × FSTree) :=
  List.insertionSort (fun a b => strLe a.1 b.1 = true) entries

/-- `current_prefix = "└── " if is_last else "├── "`. -/
def connOf (isLast : Bool) : String := if isLast then "└── " else "├── "

/-- `next_prefix = "    " if is_last else "│   "`. -/
def nextPrefixOf (isLast : Bool) : String := if isLast then "    " else "│   "

/-- One rendered line of the tree: accumulated prefix, connector, entry
name, size annotation, and the entry's path relative to the rendered
root (the source's `entry_path`). -/
structure TreeLine where
  pre : String
  conn : String
  name : String
  sizeAnn : String
  relPath : List String
deriving DecidableEq, Repr

/-- The `for i, entry in enumerate(entries)` loop body of
`get_directory_tree`: `i` is the running index over the full sorted
listing, `total` its length; entries whose name starts with `.git` are
skipped (`continue`); directories recurse via `recur`. -/
def goEntries (recur : FSTree → String → List String → List TreeLine) :
    List (String × FSTree) → Nat → Nat → String → List String → List TreeLine
  | [], _, _, _, _ => []
  | (name, sub) :: rest, i, total, pre, rel =>
    (if pyStartsWith name ".git" then []
     else
       let isLast := i == total - 1
       { pre := pre, conn := connOf isLast, name := name,
         sizeAnn := sizeAnnOf sub, relPath := rel ++ [name] } ::
       (if isDirEntry sub then recur sub (pre ++ nextPrefixOf isLast) (rel ++ [name])
        else []))
    ++ goEntries recur rest (i + 1) total pre rel

/-- Fuel-driven recursive rendering of `get_directory_tree` as a list of
lines; called only on directories (the source lists a directory path). -/
def goTree : Nat → FSTree → String → List String → List TreeLine
  | 0, _, _, _ => []
  | fuel + 1, t, pre, rel =>
    match t with
    | .file _ => []
    | .dir entries =>
      let sorted := sortEntries entries
      goEntries (goTree fuel) sorted 0 sorted.length pre rel

/-- `output += prefix + current_prefix + entry + size_str + "\n"`. -/
def renderLine (l : TreeLine) : String := l.pre ++ l.conn ++ l.name ++ l.sizeAnn ++ "\n"

mutual

/-- Number of nodes of a tree, used as recursion fuel (it strictly
exceeds the tree's depth). -/
def treeFuel : FSTree → Nat
  | .file _ => 1
  | .dir entries => 1 + entriesFuel entries

/-- Total node count of a list of entries. -/
def entriesFuel : List (String × FSTree) → Nat
  | [] => 0
  | (_, t) :: rest => treeFuel t + entriesFuel rest

end

/-- `get_directory_tree(path, prefix)`: the concatenated rendered lines.
The fuel `treeFuel t` never runs out on `t`. -/
def get_directory_tree (t : FSTree) (pre : String) : String :=
  String.join ((goTree (treeFuel t) t pre []).map renderLine)

/-! ### Python `dict` with string keys (insertion-ordered, unique keys) -/

/-- `results[k] = v`: overwrite in place if the key is present, else
append. -/
def dictInsert : List (String × String) → String → String → List (String × String)
  | [], k, v => [(k, v)]
  | (k', v') :: rest, k, v =>
    if k' = k then (k', v) :: rest else (k', v') :: dictInsert rest k v

/-- Key lookup. -/
def dictLookup : List (String × String) → String → Option String
  | [], _ => none
  | (k', v) :: rest, k => if k' = k then some v else dictLookup rest k

/-- The key list of a dict, in insertion order. -/
def dictKeys (m : List (String × String)) : List String := m.map Prod.fst

/-! ### `summarize_file` and `git_read_important_files` (main.py 97–179) -/

/-- `summarize_file` (main.py lines 97–111): the remote completion call
is external; its outcome is either the response content or the raised
exception's text, which the function catches and converts to an error
string. -/
def summarize_file (response : Except String String) : String :=
  match response with
  | .ok content => content
  | .error e => "Error summarizing content: " ++ e

deriving instance DecidableEq for Except

/-- The host filesystem seen by `git_read_important_files`: what exists
at a canonical absolute path — a regular file whose `open().read()`
outcome is given (decode errors raise), a directory, or nothing. -/
inductive HostNode where
  | file (readRes : Except String String)
  | dir
deriving DecidableEq

/-- External collaborators of `git_read_important_files`: the clone
world, the `DEEPSEEK_API_KEY` environment variable, the host
filesystem, and the summarization service (prompt and content to call
outcome). -/
structure ReadEnv where
  world : CloneWorld
  apiKey : Option String
  host : List String → Option HostNode
  summarize : String → String → Except String String

/-- The `process_summaries` phase (main.py lines 164–174): one
independent request per collected oversized file, gathered in order,
then `results[file_path] = f"[SUMMARY] {summary}"` for each. -/
def processSummaries (summarize : String → String → Except String String)
    (prompt : String) (results : List (String × String))
    (fts : List (String × String)) : List (String × String) :=
  let summaries := fts.map (fun p => summarize_file (summarize prompt p.2))
  (fts.zip summaries).foldl (fun r pq => dictInsert r pq.1.1 ("[SUMMARY] " ++ pq.2)) results

/-- The per-path loop body of `git_read_important_files` (main.py lines
146–161), threading `(results, files_to_summarize)`. -/
def readLoopStep (env : ReadEnv) (repo_path : String) (threshold : Nat)
    (acc : List (String × String) × List (String × String)) (file_path : String) :
    List (String × String) × List (String × String) :=
  let full_path := posixJoin repo_path file_path
  match env.host (resolvePath full_path) with
  | some (.file readRes) =>
    match readRes with
    | .ok content =>
      if content.utf8ByteSize > threshold then (acc.1, acc.2 ++ [(file_path, content)])
      else (dictInsert acc.1 file_path content, acc.2)
    | .error e => (dictInsert acc.1 file_path ("Error reading file: " ++ e), acc.2)
  | _ => (dictInsert acc.1 file_path "Error: File not found", acc.2)

/-- `git_read_important_files` (main.py lines 113–179): clone, check
the credential, loop over the requested paths, then summarize the
collected oversized files; any raised exception is caught and reported
as the single-entry `error` mapping. -/
def git_read_important_files (env : ReadEnv) (repo_url : String)
    (file_paths : List String) (commit_hash : Option String)
    (summarize_threshold : Nat) (summary_prompt : String) : List (String × String) :=
  match (clone_repo env.world repo_url commit_hash).1 with
  | .error e => [("error", "Failed to process repository: " ++ e)]
  | .ok repo_path =>
    if env.apiKey.getD "" = "" then
      [("error",
        "Failed to process repository: DEEPSEEK_API_KEY environment variable not set")]
    else
      let acc := file_paths.foldl (readLoopStep env repo_path summarize_threshold) ([], [])
      if acc.2.isEmpty then acc.1
      else processSummaries env.summarize summary_prompt acc.1 acc.2

/-- `git_directory_structure` (main.py lines 74–95): clone, then render
the working copy's tree; any raised exception is caught and reported as
`Error: ...`.  `treeAt` gives the filesystem subtree at the returned
path. -/
def git_directory_structure (w : CloneWorld) (repo_url : String)
    (commit_hash : Option String) (treeAt : String → FSTree) : String :=
  match (clone_repo w repo_url commit_hash).1 with
  | .ok repo_path => get_directory_tree (treeAt repo_path) ""
  | .error e => "Error: " ++ e

/-! ### Concrete scenarios used by counterexamples and witnesses -/

/-- A cached directory holding a valid, non-bare working copy whose
remote origin URL is a different repository; `git` refuses to clone
into the still-populated directory. -/
def staleWorld : CloneWorld :=
  { tmpRoot := "/tmp", dirExists := true,
    openRepo := Except.ok { bare := false, remoteUrl := Except.ok "https://example.com/other.git" },
    checkoutCached := Except.ok (),
    cloneFrom := Except.error "fatal: destination path already exists and is not an empty directory.",
    checkoutCloned := Except.ok () }

/-- No cached directory; the clone succeeds. -/
def freshWorld : CloneWorld :=
  { tmpRoot := "/tmp", dirExists := false, openRepo := Except.error "not a repo",
    checkoutCached := Except.ok (), cloneFrom := Except.ok (),
    checkoutCloned := Except.ok () }

/-- No cached directory; the clone fails. -/
def failWorld : CloneWorld :=
  { tmpRoot := "/tmp", dirExists := false, openRepo := Except.error "not a repo",
    checkoutCached := Except.ok (), cloneFrom := Except.error "Connection refused",
    checkoutCloned := Except.ok () }

/-- Canonical components of the cache directory for URL `"u"`, no
revision. -/
def demoRoot : List String := resolvePath (tempDirFor "/tmp" "u" none)

/-- A host filesystem: `a.txt` inside the working copy, and
`/secrets/creds` far outside it. -/
def demoHost : List String → Option HostNode := fun comps =>
  if comps = demoRoot ++ ["a.txt"] then some (HostNode.file (Except.ok "hi"))
  else if comps = ["secrets", "creds"] then some (HostNode.file (Except.ok "topsecret"))
  else if comps = demoRoot then some HostNode.dir
  else none

/-- Environment with a successful clone, a present credential, and an
always-successful summarizer. -/
def demoEnv : ReadEnv :=
  { world := freshWorld, apiKey := some "k", host := demoHost,
    summarize := fun _ _ => Except.ok "sum" }

/-- `demoEnv` with the `DEEPSEEK_API_KEY` variable absent. -/
def noKeyEnv : ReadEnv := { demoEnv with apiKey := none }

/-- `demoEnv` with a failing clone. -/
def failEnv : ReadEnv := { demoEnv with world := failWorld }

/-- A summarization service that fails on content `"B"` and succeeds on
everything else. -/
def failOnB : String → String → Except String String :=
  fun _ c => if c = "B" then Except.error "boom" else Except.ok "fine"

/-- A directory whose byte-wise-last entry name starts with `.git`
(`'-' < '.'`, so `-a` sorts before `.gitignore`). -/
def demoTree5 : FSTree := FSTree.dir [("-a", FSTree.file 0), (".gitignore", FSTree.file 5)]

/-! ### Dictionary lemmas -/

theorem dictLookup_insert_self (m : List (String × String)) (k v : String) :
    dictLookup (dictInsert m k v) k = some v := by
  induction m with
  | nil => simp [dictInsert, dictLookup]
  | cons q rest ih =>
    by_cases h : q.1 = k <;> simp [dictInsert, dictLookup, h, ih]

theorem dictLookup_insert_ne (m : List (String × String)) (k' k v : String)
    (h : k' ≠ k) : dictLookup (dictInsert m k' v) k = dictLookup m k := by
  induction m with
  | nil => simp [dictInsert, dictLookup, h]
  | cons q rest ih =>
    by_cases hq : q.1 = k' <;> simp [dictInsert, dictLookup, hq, h, ih]

theorem mem_dictKeys_insert (m : List (String × String)) (k v a : String) :
    a ∈ dictKeys (dictInsert m k v) ↔ a ∈ dictKeys m ∨ a = k := by
  induction m with
  | nil => simp [dictInsert, dictKeys]
  | cons q rest ih =>
    by_cases hq : q.1 = k
    · simp [dictInsert, dictKeys, hq]
      tauto
    · simp [dictInsert, dictKeys, hq] at *
      tauto

theorem dictKeys_cons (q : String × String) (rest : List (String × String)) :
    dictKeys (q :: rest) = q.1 :: dictKeys rest := rfl

theorem nodup_dictKeys_insert (m : List (String × String)) (k v : String)
    (h : (dictKeys m).Nodup) : (dictKeys (dictInsert m k v)).Nodup := by
  induction m with
  | nil => simp [dictInsert, dictKeys]
  | cons q rest ih =>
    rw [dictKeys_cons, List.nodup_cons] at h
    by_cases hq : q.1 = k
    · rw [show dictInsert (q :: rest) k v = (q.1, v) :: rest by simp [dictInsert, hq],
        dictKeys_cons, List.nodup_cons]
      exact h
    · rw [show dictInsert (q :: rest) k v = q :: dictInsert rest k v by
        simp [dictInsert, hq], dictKeys_cons, List.nodup_cons]
      refine ⟨fun hmem => ?_, ih h.2⟩
      rcases (mem_dictKeys_insert rest k v q.1).1 hmem with hin | heq
      · exact h.1 hin
      · exact hq heq

theorem length_dictInsert_not_mem (m : List (String × String)) (k v : String)
    (h : k ∉ dictKeys m) : (dictInsert m k v).length = m.length + 1 := by
  induction m with
  | nil => simp [dictInsert]
  | cons q rest ih =>
    simp [dictKeys] at h
    have hq : q.1 ≠ k := fun e => h.1 e.symm
    simp [dictInsert, hq, ih (by simpa [dictKeys] using h.2)]

/-! ### Folds of dictionary insertions -/

theorem processSummaries_eq_foldl (s : String → String → Except String String)
    (prompt : String) (r fts : List (String × String)) :
    processSummaries s prompt r fts
      = fts.foldl
          (fun r p => dictInsert r p.1 ("[SUMMARY] " ++ summarize_file (s prompt p.2))) r := by
  induction fts generalizing r with
  | nil => rfl
  | cons p rest ih =>
    have h := ih (dictInsert r p.1 ("[SUMMARY] " ++ summarize_file (s prompt p.2)))
    simp only [processSummaries, List.map_cons, List.zip_cons_cons, List.foldl_cons] at h ⊢
    exact h

theorem foldl_dictInsert_lookup_not_mem (g : String × String → String)
    (fts r : List (String × String)) (fp : String)
    (h : fp ∉ fts.map Prod.fst) :
    dictLookup (fts.foldl (fun r p => dictInsert r p.1 (g p)) r) fp = dictLookup r fp := by
  induction fts generalizing r with
  | nil => rfl
  | cons p rest ih =>
    simp only [List.map_cons, List.mem_cons, not_or] at h
    simp only [List.foldl_cons]
    rw [ih _ h.2, dictLookup_insert_ne r p.1 fp (g p) (fun e => h.1 e.symm)]

theorem foldl_dictInsert_lookup_mem (g : String × String → String)
    (fts r : List (String × String)) (fp c : String)
    (hnd : (fts.map Prod.fst).Nodup) (hmem : (fp, c) ∈ fts) :
    dictLookup (fts.foldl (fun r p => dictInsert r p.1 (g p)) r) fp = some (g (fp, c)) := by
  induction fts generalizing r with
  | nil => cases hmem
  | cons p rest ih =>
    simp only [List.map_cons, List.nodup_cons] at hnd
    simp only [List.foldl_cons]
    rcases List.mem_cons.mp hmem with heq | hmem'
    · obtain rfl : p = (fp, c) := heq.symm
      rw [foldl_dictInsert_lookup_not_mem g rest _ fp hnd.1]
      exact dictLookup_insert_self r fp (g (fp, c))
    · exact ih _ hnd.2 hmem'

theorem mem_dictInsert (m : List (String × String)) (k v : String) (q : String × String)
    (h : q ∈ dictInsert m k v) : q ∈ m ∨ q = (k, v) := by
  induction m with
  | nil => simpa [dictInsert] using h
  | cons p rest ih =>
    by_cases hp : p.1 = k
    · simp only [dictInsert, if_pos hp, List.mem_cons] at h
      rcases h with h | h
      · right; rw [h, hp]
      · left; exact List.mem_cons_of_mem _ h
    · simp only [dictInsert, if_neg hp, List.mem_cons] at h
      rcases h with h | h
      · left; exact h ▸ List.mem_cons_self _ _
      · rcases ih h with h' | h'
        · left; exact List.mem_cons_of_mem _ h'
        · right; exact h'

theorem foldl_dictInsert_mem (g : String × String → String)
    (fts r : List (String × String)) (q : String × String)
    (hq : q ∈ fts.foldl (fun r p => dictInsert r p.1 (g p)) r) :
    q ∈ r ∨ ∃ p, p ∈ fts ∧ q = (p.1, g p) := by
  induction fts generalizing r with
  | nil => left; exact hq
  | cons p rest ih =>
    simp only [List.foldl_cons] at hq
    rcases ih _ hq with h | ⟨p', hp', he⟩
    · rcases mem_dictInsert _ _ _ _ h with h' | h'
      · left; exact h'
      · right; exact ⟨p, List.mem_cons_self _ _, h'⟩
    · right; exact ⟨p', List.mem_cons_of_mem _ hp', he⟩

theorem foldl_dictInsert_length (g : String × String → String)
    (fts r : List (String × String))
    (hnd : (fts.map Prod.fst).Nodup) (hdis : ∀ p ∈ fts, p.1 ∉ dictKeys r) :
    (fts.foldl (fun r p => dictInsert r p.1 (g p)) r).length = r.length + fts.length := by
  induction fts generalizing r with
  | nil => simp
  | cons p rest ih =>
    simp only [List.map_cons, List.nodup_cons] at hnd
    simp only [List.foldl_cons, List.length_cons]
    have hdis' : ∀ q ∈ rest, q.1 ∉ dictKeys (dictInsert r p.1 (g p)) := by
      intro q hq hmem
      rcases (mem_dictKeys_insert r p.1 (g p) q.1).1 hmem with h | h
      · exact hdis q (List.mem_cons_of_mem _ hq) h
      · exact hnd.1 (h ▸ List.mem_map_of_mem Prod.fst hq)
    rw [ih _ hnd.2 hdis',
      length_dictInsert_not_mem r p.1 (g p) (hdis p (List.mem_cons_self _ _))]
    omega

theorem foldl_dictInsert_keys_mem (g : String × String → String)
    (fts r : List (String × String)) (k : String) :
    k ∈ dictKeys (fts.foldl (fun r p => dictInsert r p.1 (g p)) r) ↔
      k ∈ dictKeys r ∨ k ∈ fts.map Prod.fst := by
  induction fts generalizing r with
  | nil => simp
  | cons p rest ih =>
    simp only [List.foldl_cons, List.map_cons, List.mem_cons]
    rw [ih, mem_dictKeys_insert]
    tauto

theorem foldl_dictInsert_keys_nodup (g : String × String → String)
    (fts r : List (String × String)) (h : (dictKeys r).Nodup) :
    (dictKeys (fts.foldl (fun r p => dictInsert r p.1 (g p)) r)).Nodup := by
  induction fts generalizing r with
  | nil => exact h
  | cons p rest ih =>
    simp only [List.foldl_cons]
    exact ih _ (nodup_dictKeys_insert _ _ _ h)

/-! ### The per-path loop of `git_read_important_files` -/

/-- Every loop iteration either inserts a value for the current path
into `results` or appends the current path to `files_to_summarize`. -/
theorem readLoopStep_shape (env : ReadEnv) (rp : String) (thr : Nat)
    (acc : List (String × String) × List (String × String)) (fp : String) :
    (∃ v, readLoopStep env rp thr acc fp = (dictInsert acc.1 fp v, acc.2)) ∨
    (∃ c, readLoopStep env rp thr acc fp = (acc.1, acc.2 ++ [(fp, c)])) := by
  simp only [readLoopStep]
  cases hn : env.host (resolvePath (posixJoin rp fp)) with
  | none => exact Or.inl ⟨"Error: File not found", rfl⟩
  | some node =>
    cases node with
    | dir => exact Or.inl ⟨"Error: File not found", rfl⟩
    | file res =>
      cases res with
      | error e => exact Or.inl ⟨"Error reading file: " ++ e, rfl⟩
      | ok content =>
        by_cases hs : content.utf8ByteSize > thr
        · exact Or.inr ⟨content, by simp [hs]⟩
        · exact Or.inl ⟨content, by simp [hs]⟩

/-- Loop invariant: the loop preserves key-list uniqueness of `results`,
and the keys of `results` together with the collected oversized paths
are exactly the initial ones plus the processed paths. -/
theorem gitRead_loop_keys (env : ReadEnv) (rp : String) (thr : Nat) :
    ∀ (fps : List String) (acc : List (String × String) × List (String × String)),
      ((dictKeys acc.1).Nodup →
        (dictKeys (fps.foldl (readLoopStep env rp thr) acc).1).Nodup) ∧
      (∀ k, (k ∈ dictKeys (fps.foldl (readLoopStep env rp thr) acc).1 ∨
             k ∈ (fps.foldl (readLoopStep env rp thr) acc).2.map Prod.fst) ↔
            (k ∈ dictKeys acc.1 ∨ k ∈ acc.2.map Prod.fst ∨ k ∈ fps)) := by
  intro fps
  induction fps with
  | nil =>
    intro acc
    exact ⟨id, by intro k; simp⟩
  | cons fp rest ih =>
    intro acc
    simp only [List.foldl_cons]
    rcases readLoopStep_shape env rp thr acc fp with ⟨v, hv⟩ | ⟨c, hc⟩
    · rw [hv]
      refine ⟨fun h => (ih _).1 (nodup_dictKeys_insert _ _ _ h), fun k => ?_⟩
      rw [(ih _).2 k, mem_dictKeys_insert]
      simp only [List.mem_cons]
      tauto
    · rw [hc]
      refine ⟨fun h => (ih _).1 h, fun k => ?_⟩
      rw [(ih _).2 k]
      simp only [List.map_append, List.mem_append, List.map_cons, List.map_nil,
        List.mem_singleton, List.mem_cons]
      tauto

/-! ### Order lemmas for the name sort -/

theorem charsLe_total : ∀ as bs : List Char, charsLe as bs = true ∨ charsLe bs as = true := by
  intro as
  induction as with
  | nil => intro bs; exact Or.inl rfl
  | cons a as ih =>
    intro bs
    cases bs with
    | nil => exact Or.inr rfl
    | cons b bs =>
      simp only [charsLe]
      by_cases h1 : a.toNat < b.toNat
      · left; simp [h1]
      · by_cases h2 : b.toNat < a.toNat
        · right; simp [h2]
        · simpa [h1, h2] using ih bs

theorem charsLe_trans : ∀ as bs cs : List Char,
    charsLe as bs = true → charsLe bs cs = true → charsLe as cs = true := by
  intro as
  induction as with
  | nil => intro bs cs _ _; rfl
  | cons a as ih =>
    intro bs cs hab hbc
    cases bs with
    | nil => simp [charsLe] at hab
    | cons b bs =>
      cases cs with
      | nil => simp [charsLe] at hbc
      | cons c cs =>
        simp only [charsLe] at hab hbc ⊢
        by_cases h1 : a.toNat < b.toNat
        · by_cases h2 : b.toNat < c.toNat
          · simp [show a.toNat < c.toNat from Nat.lt_trans h1 h2]
          · have hcb : ¬ c.toNat < b.toNat := by
              intro h
              simp [h2, h] at hbc
            simp [show a.toNat < c.toNat by omega]
        · have hba : ¬ b.toNat < a.toNat := by
            intro h
            simp [h1, h] at hab
          have hab' : charsLe as bs = true := by simpa [h1, hba] using hab
          by_cases h2 : b.toNat < c.toNat
          · simp [show a.toNat < c.toNat by omega]
          · have hcb : ¬ c.toNat < b.toNat := by
              intro h
              simp [h2, h] at hbc
            have hbc' : charsLe bs cs = true := by simpa [h2, hcb] using hbc
            have h3 : ¬ a.toNat < c.toNat := by omega
            have h4 : ¬ c.toNat < a.toNat := by omega
            simpa [h3, h4] using ih bs cs hab' hbc'

/-! ### Structure of the rendered tree lines -/

/-- Every line rendered below a directory sits at least one level
deeper than that directory (auxiliary: the loop body, for any recursion
function whose output respects the same bound). -/
theorem goEntries_depth (recur : FSTree → String → List String → List TreeLine)
    (hr : ∀ t p r l, l ∈ recur t p r → r.length + 1 ≤ l.relPath.length) :
    ∀ (entries : List (String × FSTree)) (i total : Nat) (pre : String)
      (rel : List String) (l : TreeLine),
      l ∈ goEntries recur entries i total pre rel →
      rel.length + 1 ≤ l.relPath.length := by
  intro entries
  induction entries with
  | nil =>
    intro i total pre rel l hl
    cases hl
  | cons e rest ih =>
    intro i total pre rel l hl
    obtain ⟨name, sub⟩ := e
    simp only [goEntries] at hl
    rw [List.mem_append] at hl
    rcases hl with hl | hl
    · by_cases hg : pyStartsWith name ".git" = true
      · rw [if_pos hg] at hl
        cases hl
      · rw [if_neg hg] at hl
        rcases List.mem_cons.mp hl with hl | hl
        · rw [hl]
          simp
        · by_cases hd : isDirEntry sub = true
          · rw [if_pos hd] at hl
            have h := hr sub _ (rel ++ [name]) l hl
            simp only [List.length_append, List.length_singleton] at h
            omega
          · rw [if_neg hd] at hl
            cases hl
    · exact ih _ _ _ _ _ hl

/-- Every line rendered below a directory sits at least one level
deeper than that directory. -/
theorem goTree_depth : ∀ (fuel : Nat) (t : FSTree) (pre : String) (rel : List String)
    (l : TreeLine), l ∈ goTree fuel t pre rel → rel.length + 1 ≤ l.relPath.length := by
  intro fuel
  induction fuel with
  | zero =>
    intro t pre rel l hl
    cases hl
  | succ fuel ih =>
    intro t pre rel l hl
    cases t with
    | file s => cases hl
    | dir entries =>
      simp only [goTree] at hl
      exact goEntries_depth (goTree fuel) (fun t p r l h => ih t p r l h) _ _ _ _ _ l hl

/-- No relative-path component of a rendered line starts with `.git`,
except components inherited from the caller (auxiliary: loop body). -/
theorem goEntries_no_git (recur : FSTree → String → List String → List TreeLine)
    (hr : ∀ t p r l, l ∈ recur t p r →
      ∀ c ∈ l.relPath, c ∈ r ∨ pyStartsWith c ".git" = false) :
    ∀ (entries : List (String × FSTree)) (i total : Nat) (pre : String)
      (rel : List String) (l : TreeLine),
      l ∈ goEntries recur entries i total pre rel →
      ∀ c ∈ l.relPath, c ∈ rel ∨ pyStartsWith c ".git" = false := by
  intro entries
  induction entries with
  | nil =>
    intro i total pre rel l hl
    cases hl
  | cons e rest ih =>
    intro i total pre rel l hl c hc
    obtain ⟨name, sub⟩ := e
    simp only [goEntries] at hl
    rw [List.mem_append] at hl
    rcases hl with hl | hl
    · by_cases hg : pyStartsWith name ".git" = true
      · rw [if_pos hg] at hl
        cases hl
      · rw [if_neg hg] at hl
        rcases List.mem_cons.mp hl with hl | hl
        · rw [hl] at hc
          simp only [TreeLine.mk.injEq] at hc
          rcases List.mem_append.mp hc with h3 | h3
          · exact Or.inl h3
          · right
            have hcn : c = name := by simpa using h3
            rw [hcn]
            exact Bool.eq_false_iff.mpr hg
        · by_cases hd : isDirEntry sub = true
          · rw [if_pos hd] at hl
            rcases hr sub _ (rel ++ [name]) l hl c hc with h2 | h2
            · rcases List.mem_append.mp h2 with h3 | h3
              · exact Or.inl h3
              · right
                have hcn : c = name := by simpa using h3
                rw [hcn]
                exact Bool.eq_false_iff.mpr hg
            · exact Or.inr h2
          · rw [if_neg hd] at hl
            cases hl
    · exact ih _ _ _ _ _ hl c hc

/-- No relative-path component of a rendered line starts with `.git`,
except components inherited from the caller. -/
theorem goTree_no_git : ∀ (fuel : Nat) (t : FSTree) (pre : String) (rel : List String)
    (l : TreeLine), l ∈ goTree fuel t pre rel →
    ∀ c ∈ l.relPath, c ∈ rel ∨ pyStartsWith c ".git" = false := by
  intro fuel
  induction fuel with
  | zero =>
    intro t pre rel l hl
    cases hl
  | succ fuel ih =>
    intro t pre rel l hl
    cases t with
    | file s => cases hl
    | dir entries =>
      simp only [goTree] at hl
      exact goEntries_no_git (goTree fuel) (fun t p r l h => ih t p r l h) _ _ _ _ _ l hl

/-- The lines a directory level contributes (recovered from the full
recursive output by their depth) are exactly the sorted listing with
`.git`-prefixed entries dropped, the connector of each being determined
by the entry's index in the full sorted listing (auxiliary: loop
body). -/
theorem goEntries_level (recur : FSTree → String → List String → List TreeLine)
    (hr : ∀ t p r l, l ∈ recur t p r → r.length + 1 ≤ l.relPath.length) :
    ∀ (entries : List (String × FSTree)) (i total : Nat) (pre : String)
      (rel : List String),
      (goEntries recur entries i total pre rel).filter
          (fun l => l.relPath.length == rel.length + 1)
        = (List.enumFrom i entries).filterMap
            (fun q =>
              if pyStartsWith q.2.1 ".git" then none
              else some { pre := pre, conn := connOf (q.1 == total - 1), name := q.2.1,
                          sizeAnn := sizeAnnOf q.2.2, relPath := rel ++ [q.2.1] }) := by
  intro entries
  induction entries with
  | nil =>
    intro i total pre rel
    rfl
  | cons e rest ih =>
    intro i total pre rel
    obtain ⟨name, sub⟩ := e
    simp only [goEntries, List.enumFrom, List.filterMap_cons]
    rw [List.filter_append]
    by_cases hg : pyStartsWith name ".git" = true
    · simp only [if_pos hg, List.filter_nil, List.nil_append]
      exact ih _ _ _ _
    · simp only [if_neg hg]
      have hsub : ((if isDirEntry sub then recur sub (pre ++ nextPrefixOf (i == total - 1))
          (rel ++ [name]) else []).filter
            (fun l => l.relPath.length == rel.length + 1)) = [] := by
        rw [List.filter_eq_nil_iff]
        intro l hl
        by_cases hd : isDirEntry sub = true
        · rw [if_pos hd] at hl
          have h := hr sub _ (rel ++ [name]) l hl
          simp only [List.length_append, List.length_singleton] at h
          simp only [beq_iff_eq]
          omega
        · rw [if_neg hd] at hl
          cases hl
      rw [List.filter_cons, if_pos (by simp), hsub, ih _ _ _ _]
      rfl

/-! ### Shared helper lemmas about `git_read_important_files` -/

/-- With a successful acquisition and the credential absent, the result
is the total-failure mapping, whatever the host filesystem, the
summarizer, the prompt, and the requested paths are. -/
theorem gitRead_noKey_aux (env : ReadEnv) (url prompt : String)
    (fps : List String) (commit : Option String) (thr : Nat) (p : String)
    (hclone : (clone_repo env.world url commit).1 = Except.ok p)
    (hkey : env.apiKey = none) :
    git_read_important_files env url fps commit thr prompt
      = [("error",
          "Failed to process repository: DEEPSEEK_API_KEY environment variable not set")] := by
  unfold git_read_important_files
  rw [hclone]
  simp [hkey]

/-! ## Claims -/

/-- C1: the claim states that an acquisition hitting a cached directory
that is a valid non-bare repository with a mismatching remote origin
URL discards the stale contents and freshly clones, returning the path
on clone success.  The code does not: the `if` guard is merely false on
this path, so the `except` handler's `rmtree` never runs, and
`clone_from` is attempted on the still-populated directory — which git
refuses, so the call raises `Failed to clone repository: ...` (after
deleting the directory) instead of re-cloning.  At the concrete
mismatch scenario the trace performs no deletion before the clone
attempt and the result is the failure, not a path. -/
theorem clone_repo_url_mismatch_no_discard :
    (clone_repo staleWorld "https://example.com/repo.git" none).1
      = Except.error
          "Failed to clone repository: fatal: destination path already exists and is not an empty directory." ∧
    (clone_repo staleWorld "https://example.com/repo.git" none).2
      = [FsAction.openRepoAttempt, FsAction.makedirs, FsAction.cloneAttempt,
         FsAction.rmtree] ∧
    rmtreeBeforeCloneAttempt
        (clone_repo staleWorld "https://example.com/repo.git" none).2 = false :=
  ⟨rfl, rfl, rfl⟩

/-- C3 counterexample: in a batch of two oversized files where exactly
one summarization call fails, *no* entry is a bare error string — the
failing file's entry also begins with the `[SUMMARY] ` marker (the
caller prepends the marker to whatever `summarize_file` returned,
including its caught-exception error string), so "exactly one entry
being an error string and every other entry beginning with the marker"
is false: zero entries are error strings. -/
theorem processSummaries_one_failure_cex :
    processSummaries failOnB "P" [] [("a", "A"), ("b", "B")]
        = [("a", "[SUMMARY] fine"), ("b", "[SUMMARY] Error summarizing content: boom")] ∧
    ((processSummaries failOnB "P" [] [("a", "A"), ("b", "B")]).filter
        (fun q => pyStartsWith q.2 "Error")).length = 0 := by
  constructor <;> decide

/-- C3 amended: for a batch of K oversized files with distinct paths
where one summarization call fails and the rest succeed, the result
still contains K entries and no file's failure affects a sibling: each
path is mapped to `[SUMMARY] ` followed by `summarize_file` of its own
call's outcome — the summary text on success, and the scoped error
string `Error summarizing content: ...` on failure (so every entry,
including the failed one, carries the marker prefix). -/
theorem processSummaries_partial_failure (s : String → String → Except String String)
    (prompt : String) (fts : List (String × String))
    (hnd : (fts.map Prod.fst).Nodup) :
    (processSummaries s prompt [] fts).length = fts.length ∧
    (∀ fp c, (fp, c) ∈ fts →
      dictLookup (processSummaries s prompt [] fts) fp
        = some ("[SUMMARY] " ++ summarize_file (s prompt c))) ∧
    (∀ q ∈ processSummaries s prompt [] fts, ∃ x, q.2 = "[SUMMARY] " ++ x) := by
  refine ⟨?_, ?_, ?_⟩
  · rw [processSummaries_eq_foldl]
    have h := foldl_dictInsert_length
      (fun p => "[SUMMARY] " ++ summarize_file (s prompt p.2)) fts [] hnd
      (by intro p _ hm; simp [dictKeys] at hm)
    simpa using h
  · intro fp c hmem
    rw [processSummaries_eq_foldl]
    exact foldl_dictInsert_lookup_mem _ fts [] fp c hnd hmem
  · intro q hq
    rw [processSummaries_eq_foldl] at hq
    rcases foldl_dictInsert_mem _ fts [] q hq with h | ⟨p, _, he⟩
    · cases h
    · exact ⟨summarize_file (s prompt p.2), by rw [he]⟩

/-- Witness for C3's amended theorem at the concrete two-file batch with
one failing call. -/
theorem processSummaries_partial_failure_witness :
    (processSummaries failOnB "P" [] [("a", "A"), ("b", "B")]).length = 2 ∧
    dictLookup (processSummaries failOnB "P" [] [("a", "A"), ("b", "B")]) "b"
      = some ("[SUMMARY] " ++ summarize_file (failOnB "P" "B")) :=
  ⟨(processSummaries_partial_failure failOnB "P" [("a", "A"), ("b", "B")] (by decide)).1,
   (processSummaries_partial_failure failOnB "P" [("a", "A"), ("b", "B")] (by decide)).2.1
     "b" "B" (by decide)⟩

/-- C4 counterexample: the requested list `["a.txt", "a.txt"]` has N = 2
paths, but the result is a Python dict and holds a single key — repeated
paths are not counted separately. -/
theorem git_read_duplicate_paths_cex :
    git_read_important_files demoEnv "u" ["a.txt", "a.txt"] none 10000 "P"
        = [("a.txt", "hi")] ∧
    (dictKeys (git_read_important_files demoEnv "u" ["a.txt", "a.txt"] none 10000 "P")).length
        = 1 := by
  constructor <;> decide

/-- C4 amended: under successful acquisition with the credential
present, the result maps exactly the distinct requested paths — its key
list is duplicate-free and contains a key iff it is a requested path —
so for a duplicate-free request of N paths it has exactly N entries,
regardless of how many individual reads or summarizations fail. -/
theorem git_read_keys_per_distinct_path (env : ReadEnv) (url prompt : String)
    (fps : List String) (commit : Option String) (thr : Nat) (p : String)
    (hclone : (clone_repo env.world url commit).1 = Except.ok p)
    (hkey : ¬ env.apiKey.getD "" = "") :
    (dictKeys (git_read_important_files env url fps commit thr prompt)).Nodup ∧
    (∀ k, k ∈ dictKeys (git_read_important_files env url fps commit thr prompt) ↔ k ∈ fps) ∧
    (fps.Nodup →
      (git_read_important_files env url fps commit thr prompt).length = fps.length) := by
  set acc := fps.foldl (readLoopStep env p thr) ([], []) with hacc
  have hloop := gitRead_loop_keys env p thr fps ([], [])
  rw [← hacc] at hloop
  have hacc1nd : (dictKeys acc.1).Nodup := hloop.1 (by simp [dictKeys])
  have hmem : ∀ k, (k ∈ dictKeys acc.1 ∨ k ∈ acc.2.map Prod.fst) ↔ k ∈ fps := by
    intro k
    have h := hloop.2 k
    simpa only [dictKeys, List.map_nil, List.not_mem_nil, false_or] using h
  have hm : git_read_important_files env url fps commit thr prompt
      = (if acc.2.isEmpty = true then acc.1
         else processSummaries env.summarize prompt acc.1 acc.2) := by
    unfold git_read_important_files
    rw [hclone]
    simp only [hkey, if_false, hacc]
  by_cases hempty : acc.2.isEmpty = true
  · rw [hm, if_pos hempty]
    have h2nil : acc.2 = [] := List.isEmpty_iff.mp hempty
    have hiff : ∀ k, k ∈ dictKeys acc.1 ↔ k ∈ fps := by
      intro k
      have h := hmem k
      rw [h2nil] at h
      simpa using h
    refine ⟨hacc1nd, hiff, fun hfnd => ?_⟩
    have hperm : List.Perm (dictKeys acc.1) fps :=
      (List.perm_ext_iff_of_nodup hacc1nd hfnd).mpr hiff
    have hlen := hperm.length_eq
    simpa only [dictKeys, List.length_map] using hlen
  · rw [hm, if_neg hempty, processSummaries_eq_foldl]
    have hiff : ∀ k,
        k ∈ dictKeys (acc.2.foldl
          (fun r q => dictInsert r q.1
            ("[SUMMARY] " ++ summarize_file (env.summarize prompt q.2))) acc.1) ↔
          k ∈ fps := by
      intro k
      rw [foldl_dictInsert_keys_mem]
      exact hmem k
    have hnd : (dictKeys (acc.2.foldl
        (fun r q => dictInsert r q.1
          ("[SUMMARY] " ++ summarize_file (env.summarize prompt q.2))) acc.1)).Nodup :=
      foldl_dictInsert_keys_nodup _ _ _ hacc1nd
    refine ⟨hnd, hiff, fun hfnd => ?_⟩
    have hperm := (List.perm_ext_iff_of_nodup hnd hfnd).mpr hiff
    have hlen := hperm.length_eq
    simpa only [dictKeys, List.length_map] using hlen

/-- Witness for C4's amended theorem at a concrete two-distinct-path
request. -/
theorem git_read_keys_per_distinct_path_witness :
    (git_read_important_files demoEnv "u" ["a.txt", "missing.txt"] none 10000 "P").length = 2 :=
  (git_read_keys_per_distinct_path demoEnv "u" "P" ["a.txt", "missing.txt"] none 10000
      (tempDirFor "/tmp" "u" none) rfl (by decide)).2.2 (by decide)

/-- C6 counterexample: the claim asserts `derive(url, None)` and
`derive(url, "")` differ for every url; at this concrete url they are
equal (`commit_hash or ""` maps both to `""`). -/
theorem repoHash_absent_vs_empty_cex :
    repoHash "https://github.com/example/repo" none
      = repoHash "https://github.com/example/repo" (some "") := rfl

/-- C6 amended: an absent revision and a present-but-empty revision
yield the **same** cache key, for every url. -/
theorem repoHash_absent_eq_empty (url : String) :
    repoHash url none = repoHash url (some "") := rfl

/-- C7: with the `DEEPSEEK_API_KEY` credential missing, the operation
fails as a whole with the single-entry total-failure mapping; the
result is the same for every host filesystem, summarizer, prompt and
requested path list, i.e. the precondition failure is surfaced before
any per-file request is attempted. -/
theorem git_read_missing_key_total_failure (env : ReadEnv) (url prompt : String)
    (fps : List String) (commit : Option String) (thr : Nat) (p : String)
    (hclone : (clone_repo env.world url commit).1 = Except.ok p)
    (hkey : env.apiKey = none) :
    git_read_important_files env url fps commit thr prompt
      = [("error",
          "Failed to process repository: DEEPSEEK_API_KEY environment variable not set")] :=
  gitRead_noKey_aux env url prompt fps commit thr p hclone hkey

/-- Witness for C7 at a concrete environment. -/
theorem git_read_missing_key_total_failure_witness :
    git_read_important_files noKeyEnv "u" ["a.txt"] none 10000 "P"
      = [("error",
          "Failed to process repository: DEEPSEEK_API_KEY environment variable not set")] :=
  git_read_missing_key_total_failure noKeyEnv "u" "P" ["a.txt"] none 10000
    (tempDirFor "/tmp" "u" none) rfl rfl

/-- C8: when the clone attempt fails (and no valid cached directory
exists), `git_read_important_files` returns the single-entry mapping
whose key is `error` and whose value is `Failed to process repository: `
followed by the cause, and `git_directory_structure` returns
`Error: ` followed by the cause. -/
theorem clone_failure_error_mappings (env : ReadEnv) (url prompt : String)
    (fps : List String) (commit : Option String) (thr : Nat)
    (treeAt : String → FSTree) (e : String)
    (hclone : (clone_repo env.world url commit).1 = Except.error e) :
    git_read_important_files env url fps commit thr prompt
        = [("error", "Failed to process repository: " ++ e)] ∧
    git_directory_structure env.world url commit treeAt = "Error: " ++ e := by
  constructor
  · unfold git_read_important_files
    rw [hclone]
  · unfold git_directory_structure
    rw [hclone]

/-- Witness for C8 at a concrete failing-clone environment. -/
theorem clone_failure_error_mappings_witness :
    git_read_important_files failEnv "u" ["x"] none 10000 "P"
        = [("error",
            "Failed to process repository: Failed to clone repository: Connection refused")] ∧
    git_directory_structure failEnv.world "u" none (fun _ => FSTree.dir [])
        = "Error: Failed to clone repository: Connection refused" :=
  clone_failure_error_mappings failEnv "u" "P" ["x"] none 10000
    (fun _ => FSTree.dir []) "Failed to clone repository: Connection refused" rfl

/-- C2: requested paths are joined to the working-copy root without
confinement.  For any absolute requested path, the join discards the
working-copy root and the path resolves to that absolute location
itself, and the file found there (anywhere on the host filesystem) is
returned — raw or summarized per the threshold — under the requested
path's key; likewise `..` components step outside the working copy, as
the closing concrete conjuncts show end to end. -/
theorem git_read_no_confinement (env : ReadEnv) (url fp prompt : String)
    (commit : Option String) (thr : Nat) (p c : String)
    (hclone : (clone_repo env.world url commit).1 = Except.ok p)
    (hkey : ¬ env.apiKey.getD "" = "")
    (habs : pyStartsWith fp "/" = true)
    (hfile : env.host (resolvePath fp) = some (HostNode.file (Except.ok c))) :
    posixJoin p fp = fp ∧
    dictLookup (git_read_important_files env url [fp] commit thr prompt) fp
      = some (if c.utf8ByteSize > thr then
                "[SUMMARY] " ++ summarize_file (env.summarize prompt c)
              else c) ∧
    resolvePath (posixJoin "/tmp/github_tools_cafe" "../../etc/passwd")
      = ["etc", "passwd"] ∧
    dictLookup (git_read_important_files demoEnv "u" ["../../../secrets/creds"] none 10000 "P")
        "../../../secrets/creds" = some "topsecret" := by
  have hjoin : posixJoin p fp = fp := by
    simp [posixJoin, habs]
  refine ⟨hjoin, ?_, by decide, by decide⟩
  unfold git_read_important_files
  rw [hclone]
  simp only [if_neg hkey]
  simp only [List.foldl_cons, List.foldl_nil, readLoopStep, hjoin, hfile]
  by_cases hs : c.utf8ByteSize > thr
  · simp only [if_pos hs]
    simp [processSummaries, dictInsert, dictLookup]
  · simp only [if_neg hs]
    simp [hs, dictInsert, dictLookup]

/-- Witness for C2 at a concrete environment: the absolute requested
path `/secrets/creds` escapes the working copy and its contents come
back under that key. -/
theorem git_read_no_confinement_witness :
    dictLookup (git_read_important_files demoEnv "u" ["/secrets/creds"] none 10000 "P")
        "/secrets/creds" = some "topsecret" := by
  have h := (git_read_no_confinement demoEnv "u" "/secrets/creds" "P" none 10000
    (tempDirFor "/tmp" "u" none) "topsecret" rfl (by decide) (by decide) (by decide)).2.1
  simpa using h

/-- C5 counterexample: in a directory whose byte-wise-last entry name
starts with `.git` (here `[-a, .gitignore]`, since `'-' < '.'`), the
final — and only — rendered entry of the level carries `├── `, not
`└── `: `is_last` is computed against the full listing including the
excluded entry. -/
theorem tree_last_sibling_connector_cex :
    get_directory_tree demoTree5 "" = "├── -a\n" ∧
    (goTree (treeFuel demoTree5) demoTree5 "" []).map TreeLine.conn = ["├── "] := by
  constructor <;> decide

/-- C5 amended: within each directory level the entries are sorted
lexicographically ascending, and an emitted line's connector is `└── `
exactly when its entry is the last of the full sorted listing
*including* the excluded `.git`-prefixed entries (so when the byte-wise
last entry starts with `.git`, the final rendered entry of the level
carries `├── `).  The level's lines are recovered from the recursive
output by their depth. -/
theorem goTree_level_connectors (fuel : Nat) (entries : List (String × FSTree))
    (pre : String) (rel : List String) :
    ((goTree (fuel + 1) (FSTree.dir entries) pre rel).filter
        (fun l => l.relPath.length == rel.length + 1))
      = (List.enumFrom 0 (sortEntries entries)).filterMap
          (fun q =>
            if pyStartsWith q.2.1 ".git" then none
            else some { pre := pre,
                        conn := connOf (q.1 == (sortEntries entries).length - 1),
                        name := q.2.1, sizeAnn := sizeAnnOf q.2.2,
                        relPath := rel ++ [q.2.1] }) ∧
    List.Pairwise (fun a b : String × FSTree => strLe a.1 b.1 = true)
      (sortEntries entries) := by
  constructor
  · simp only [goTree]
    exact goEntries_level (goTree fuel) (fun t p r l h => goTree_depth fuel t p r l h)
      (sortEntries entries) 0 (sortEntries entries).length pre rel
  · have h := @List.sorted_insertionSort (String × FSTree)
      (fun a b => strLe a.1 b.1 = true) (fun a b => instDecidableEqBool (strLe a.1 b.1) true)
      ⟨fun a b => charsLe_total a.1.data b.1.data⟩
      ⟨fun a b c hab hbc => charsLe_trans a.1.data b.1.data c.1.data hab hbc⟩
      entries
    simpa [List.Sorted, sortEntries] using h

/-- C9: at every depth, the rendered lines never name an entry whose
name begins with `.git`, and no line comes from inside such an entry's
subtree: every component of every rendered line's path relative to the
rendered root avoids the `.git` prefix. -/
theorem tree_never_renders_git (fuel : Nat) (t : FSTree) (pre : String)
    (l : TreeLine) (hl : l ∈ goTree fuel t pre []) :
    ∀ c ∈ l.relPath, pyStartsWith c ".git" = false := by
  intro c hc
  rcases goTree_no_git fuel t pre [] l hl c hc with h | h
  · cases h
  · exact h

/-- Witness for C9 at a concrete one-entry tree. -/
theorem tree_never_renders_git_witness : pyStartsWith "a" ".git" = false :=
  tree_never_renders_git 2 (FSTree.dir [("a", FSTree.file 1)]) ""
    { pre := "", conn := "└── ", name := "a", sizeAnn := " (1 bytes)", relPath := ["a"] }
    (by decide) "a" (by decide)

/-- C10: the credential precondition is checked unconditionally after
acquisition: with the key missing the total-failure mapping is returned
even for the empty request list, and no mapping produced under a
missing key ever binds any key other than `error` (so no per-file
content is ever returned). -/
theorem git_read_missing_key_no_content (env : ReadEnv) (url prompt : String)
    (commit : Option String) (thr : Nat) (p : String)
    (hclone : (clone_repo env.world url commit).1 = Except.ok p)
    (hkey : env.apiKey = none) :
    git_read_important_files env url [] commit thr prompt
        = [("error",
            "Failed to process repository: DEEPSEEK_API_KEY environment variable not set")] ∧
    ∀ (fps : List String) (fp v : String),
      dictLookup (git_read_important_files env url fps commit thr prompt) fp = some v →
        fp = "error" ∧
        v = "Failed to process repository: DEEPSEEK_API_KEY environment variable not set" := by
  refine ⟨gitRead_noKey_aux env url prompt [] commit thr p hclone hkey, ?_⟩
  intro fps fp v hv
  rw [gitRead_noKey_aux env url prompt fps commit thr p hclone hkey] at hv
  simp [dictLookup] at hv
  rcases hv with ⟨h1, h2⟩
  exact ⟨h1.symm, h2.symm⟩

/-- Witness for C10 at a concrete environment. -/
theorem git_read_missing_key_no_content_witness :
    git_read_important_files noKeyEnv "u" [] none 10000 "P"
        = [("error",
            "Failed to process repository: DEEPSEEK_API_KEY environment variable not set")] :=
  (git_read_missing_key_no_content noKeyEnv "u" "P" none 10000
    (tempDirFor "/tmp" "u" none) rfl rfl).1

end McpGitIngest
